import Mathlib

/-!
Verification development for the IR remote-control converter sketch
(src/src/ir_remote_control_converter.ino).

Modelling conventions.  The microcontroller EEPROM is a total map from
addresses to stored bytes; each cell holds one byte, so a write stores the
value modulo 256 and a read reduces modulo 256.  The `unsigned long` type of
the target board is 32 bits wide; such values are modelled as `Nat` with an
explicit bound of 2 ^ 32 in the statements where width matters.  The
blocking decode collaborator (`irrecv.decode`) is modelled by the finite
list of decoded signals it yields, in arrival order; the learning routine,
which in the source blocks forever when no further signal arrives, returns
`none` when the list is exhausted before every key slot is filled.
Serial printing, pin handling and delays have no observable effect on the
modelled state and are omitted.
-/

namespace IRConverter

/-- EEPROM contents: the stored byte at each address. -/
abbrev Mem := Nat → Nat

namespace EEPROM

/-- EEPROM.write(address, value) of the Arduino EEPROM library: stores one
byte at the given address (the value parameter has byte type, hence the
reduction modulo 256). -/
def write (eepromAddress valueToWrite : Nat) (m : Mem) : Mem :=
  fun x => if x = eepromAddress then valueToWrite % 256 else m x

/-- EEPROM.read(address) of the Arduino EEPROM library: yields the byte
stored at the given address. -/
def read (eepromAddress : Nat) (m : Mem) : Nat := m eepromAddress % 256

end EEPROM

/-- EEPROM.length() of the target board (ATmega328P): 1024 bytes. -/
def EEPROM_LENGTH : Nat := 1024

/-- number of used ir remote keys (`const int NUMBER_OF_KEYS = 15`). -/
def NUMBER_OF_KEYS : Nat := 15

/-- id value used for data validation (`const byte EEPROM_ID_VALUE = 0x99`). -/
def EEPROM_ID_VALUE : Nat := 0x99

/-- id address (`const byte EEPROM_ID_ADDRESS = 0`). -/
def EEPROM_ID_ADDRESS : Nat := 0

/-- physical ir remote type address (`EEPROM_ID_ADDRESS + 1`). -/
def EEPROM_PHY_IR_TYPE_ADDRESS : Nat := EEPROM_ID_ADDRESS + 1

/-- emulated ir remote type address (`EEPROM_PHY_IR_TYPE_ADDRESS + 1`). -/
def EEPROM_EMU_IR_TYPE_ADDRESS : Nat := EEPROM_PHY_IR_TYPE_ADDRESS + 1

/-- data storage (ir remotes key codes) address (`EEPROM_EMU_IR_TYPE_ADDRESS + 1`). -/
def EEPROM_DATA_ADDRESS : Nat := EEPROM_EMU_IR_TYPE_ADDRESS + 1

/-- JVC protocol tag from the external Arduino-IRremote library
(decode_type_t: UNKNOWN = -1, UNUSED = 0, RC5 = 1, RC6 = 2, NEC = 3,
SONY = 4, PANASONIC = 5, JVC = 6, SAMSUNG = 7, ...). -/
def JVC : Int := 6

/-- SAMSUNG protocol tag from the external Arduino-IRremote library
(see the comment on `JVC`). -/
def SAMSUNG : Int := 7

/-- eepromWriteLong: decomposes a 32-bit value into 4 bytes
(byte1 = MSB, byte4 = LSB) and writes them at ascending addresses,
least-significant byte at the lowest address. -/
def eepromWriteLong (valueToWrite : Nat) (eepromAddress : Nat) (m : Mem) : Mem :=
  let byte4 := valueToWrite &&& 0xFF
  let byte3 := (valueToWrite >>> 8) &&& 0xFF
  let byte2 := (valueToWrite >>> 16) &&& 0xFF
  let byte1 := (valueToWrite >>> 24) &&& 0xFF
  EEPROM.write (eepromAddress + 3) byte1
    (EEPROM.write (eepromAddress + 2) byte2
      (EEPROM.write (eepromAddress + 1) byte3
        (EEPROM.write eepromAddress byte4 m)))

/-- eepromReadLong: reads 4 bytes at ascending addresses and rebuilds the
32-bit value, with the exact masks of the source expression. -/
def eepromReadLong (eepromAddress : Nat) (m : Mem) : Nat :=
  let byte4 := EEPROM.read eepromAddress m
  let byte3 := EEPROM.read (eepromAddress + 1) m
  let byte2 := EEPROM.read (eepromAddress + 2) m
  let byte1 := EEPROM.read (eepromAddress + 3) m
  ((byte4 <<< 0) &&& 0xFF) + ((byte3 <<< 8) &&& 0xFFFF) +
    ((byte2 <<< 16) &&& 0xFFFFFF) + ((byte1 <<< 24) &&& 0xFFFFFFFF)

/-- eepromErase: writes 0 to every address below `len` (the source loops
`for (i = 0; i < EEPROM.length(); i++) EEPROM.write(i, 0)`; the recursion
performs the write with index `n` last, matching the ascending loop). -/
def eepromErase : Nat → Mem → Mem
  | 0, m => m
  | n + 1, m => EEPROM.write n 0 (eepromErase n m)

/-- eepromReadByte. -/
def eepromReadByte (eepromAddress : Nat) (m : Mem) : Nat :=
  EEPROM.read eepromAddress m

/-- eepromWriteByte(valueToWrite, eepromAddress). -/
def eepromWriteByte (valueToWrite eepromAddress : Nat) (m : Mem) : Mem :=
  EEPROM.write eepromAddress valueToWrite m

/-- eepromGetData: reads `numberOfValues` code pairs; row i is read from
addresses `base + 8 * i` (physical code) and `base + 8 * i + 4` (emulated
code).  The recursion advances the base address by 8 per row, which realizes
the source's `eepromDataAddress + 8 * i` indexing. -/
def eepromGetData : Nat → Nat → Mem → List (Nat × Nat)
  | _, 0, _ => []
  | eepromDataAddress, n + 1, m =>
      (eepromReadLong eepromDataAddress m,
        eepromReadLong (eepromDataAddress + 4) m) ::
        eepromGetData (eepromDataAddress + 8) n m

/-- eepromSetData: writes the code pairs; row i goes to addresses
`base + 8 * i` (physical code) and `base + 8 * i + 4` (emulated code), as in
`eepromGetData`. -/
def eepromSetData : Nat → List (Nat × Nat) → Mem → Mem
  | _, [], m => m
  | eepromDataAddress, row :: rows, m =>
      eepromSetData (eepromDataAddress + 8) rows
        (eepromWriteLong row.2 (eepromDataAddress + 4)
          (eepromWriteLong row.1 eepromDataAddress m))

/-- A transmit call performed by the dispatch part of `loop` through the
IRsend collaborator. -/
inductive SendCall where
  | sendJVC : Nat → Nat → Nat → SendCall
  | sendSAMSUNG : Nat → Nat → SendCall
deriving DecidableEq

/-- The `switch (emuIrType - 1)` statement of `loop`.  `emuIrType` has byte
type and is promoted to int before the subtraction, hence the `Int` value.
In the source the `default:` label is followed only by commented-out case
lines before `case JVC:`, so control falls through from `default:` into the
`sendJVC` arm: every tag other than SAMSUNG reaches `sendJVC`. -/
def dispatchSwitch (emuIrType : Nat) (data : Nat) : SendCall :=
  if (emuIrType : Int) - 1 = JVC then SendCall.sendJVC data 16 0
  else if (emuIrType : Int) - 1 = SAMSUNG then SendCall.sendSAMSUNG data 32
  else SendCall.sendJVC data 16 0

/-- The linear scan of `loop`: `while (i < NUMBER_OF_KEYS)` compares
`irKeyCodes[i][0]` with the received value and breaks at the first match;
the result is the index of the first matching row, if any. -/
def lookupSlot : List (Nat × Nat) → Nat → Option Nat
  | [], _ => none
  | row :: rows, rcvValue =>
      if row.1 = rcvValue then some 0
      else (lookupSlot rows rcvValue).map (fun j => j + 1)

/-- One dispatch iteration of `loop` (the part after the setup-mode block):
`rcvValue` is initialized to 0 and set from `decodedSignal.value` when a
signal was decoded; when `rcvValue > 0` the table is scanned and on a hit
one transmit call selected by `dispatchSwitch` is performed.  The returned
list holds the transmit calls of the iteration. -/
def loopDispatch (irKeyCodes : List (Nat × Nat)) (emuIrType : Nat)
    (decoded : Option Nat) : List SendCall :=
  let rcvValue := decoded.getD 0
  if rcvValue > 0 then
    match lookupSlot irKeyCodes rcvValue with
    | some i => [dispatchSwitch emuIrType ((irKeyCodes.getD i (0, 0)).2)]
    | none => []
  else []

/-- A sequence of dispatch iterations of `loop`.  `rcvValue` is a local
variable re-initialized to 0 each iteration and no other variable read by
the dispatch path is written by it, so iterations are independent. -/
def dispatchRun (irKeyCodes : List (Nat × Nat)) (emuIrType : Nat) :
    List (Option Nat) → List SendCall
  | [] => []
  | d :: ds => loopDispatch irKeyCodes emuIrType d ++ dispatchRun irKeyCodes emuIrType ds

/-- One decoded signal of the IRrecv collaborator (the fields of
`decode_results` read by the sketch): `decode_type` is an int, `value` an
unsigned long. -/
structure DecodeResult where
  decode_type : Int
  value : Nat
deriving DecidableEq

/-- Conversion of an int to the byte type (C truncation modulo 256). -/
def toByte (x : Int) : Nat := (x % 256).toNat

/-- The assignment `irKeyCodesArray[i][dataSetRow] = value` on the
two-column code table. -/
def setCode (codes : List (Nat × Nat)) (i dataSetRow v : Nat) : List (Nat × Nat) :=
  if dataSetRow = 0 then codes.set i (v, (codes.getD i (0, 0)).2)
  else codes.set i ((codes.getD i (0, 0)).1, v)

/-- Column read `codes[i][c]` on a table row. -/
def colVal (row : Nat × Nat) (c : Nat) : Nat :=
  if c = 0 then row.1 else row.2

/-- The nested wait loops of `learnIRKeyCodes`, consuming decoded signals
in order.  State: slot index `i`, the `previousValue` filter, and the
captured `remoteType`.  A signal is accepted when its value differs from
`(unsigned long)(-1) = 4294967295` and from `previousValue`; on acceptance
the value is stored at column `dataSetRow` of row `i`, `previousValue`
becomes the value, `remoteType` is captured when `i == 0`, and `i`
advances.  `previousValue` is never reset between slots.  When the signal
list ends with slots still unfilled the source blocks forever: `none`. -/
def learnGo (numberOfKeys dataSetRow : Nat) :
    List DecodeResult → List (Nat × Nat) → Nat → Nat → Int →
      Option (List (Nat × Nat) × Int)
  | [], codes, i, _, remoteType =>
      if numberOfKeys ≤ i then some (codes, remoteType) else none
  | s :: rest, codes, i, previousValue, remoteType =>
      if numberOfKeys ≤ i then some (codes, remoteType)
      else if s.value ≠ 4294967295 ∧ s.value ≠ previousValue then
        learnGo numberOfKeys dataSetRow rest
          (setCode codes i dataSetRow s.value) (i + 1) s.value
          (if i = 0 then s.decode_type else remoteType)
      else learnGo numberOfKeys dataSetRow rest codes i previousValue remoteType

/-- learnIRKeyCodes: `remoteType` starts at -1, `previousValue` at
`(unsigned long)(-1) = 4294967295`, `i` at 0; on completion the updated
table and the byte `remoteType + 1` are returned.  (The name array is only
printed and the initial buffer flush only discards signals decoded before
the session; the signal list holds the signals decoded during the
session.) -/
def learnIRKeyCodes (signals : List DecodeResult)
    (irKeyCodesArray : List (Nat × Nat)) (numberOfKeys dataSetRow : Nat) :
    Option (List (Nat × Nat) × Nat) :=
  match learnGo numberOfKeys dataSetRow signals irKeyCodesArray 0 4294967295 (-1) with
  | some (codes, remoteType) => some (codes, toByte (remoteType + 1))
  | none => none

/-- The first signal of the list passing the acceptance test of
`learnIRKeyCodes` against a given `previousValue`. -/
def firstAccepted (previousValue : Nat) : List DecodeResult → Option DecodeResult
  | [] => none
  | s :: rest =>
      if s.value ≠ 4294967295 ∧ s.value ≠ previousValue then some s
      else firstAccepted previousValue rest

/-- The EEPROM effect of the setup-mode block of `loop`, in source order:
erase the whole EEPROM, write the id value at address 0, write the physical
remote type byte at address 1, write the emulated remote type byte at
address 2, then write the key-code rows starting at address 3.  (The
interleaved learning calls and serial prints do not touch the EEPROM.) -/
def setupModePersist (phyIrType emuIrType : Nat) (irKeyCodes : List (Nat × Nat))
    (m : Mem) : Mem :=
  eepromSetData EEPROM_DATA_ADDRESS irKeyCodes
    (eepromWriteByte emuIrType EEPROM_EMU_IR_TYPE_ADDRESS
      (eepromWriteByte phyIrType EEPROM_PHY_IR_TYPE_ADDRESS
        (eepromWriteByte EEPROM_ID_VALUE EEPROM_ID_ADDRESS
          (eepromErase EEPROM_LENGTH m))))

/-- The global variables of the sketch read by `setup` and `loop`. -/
structure SysState where
  eepromIdValue : Nat
  phyIrType : Nat
  emuIrType : Nat
  irKeyCodes : List (Nat × Nat)
  setupMode : Bool
deriving DecidableEq

/-- The globals at reset: byte globals zero, the code table zero-initialized,
`setupMode = false`. -/
def initialState : SysState :=
  { eepromIdValue := 0, phyIrType := 0, emuIrType := 0,
    irKeyCodes := List.replicate NUMBER_OF_KEYS (0, 0), setupMode := false }

/-- The EEPROM-dependent part of `setup()`: read the id byte; when it equals
`EEPROM_ID_VALUE` load both remote-type bytes and the key-code table from
the EEPROM, otherwise set `setupMode = true` and load nothing. -/
def setup (m : Mem) : SysState :=
  let id := eepromReadByte EEPROM_ID_ADDRESS m
  if id = EEPROM_ID_VALUE then
    { eepromIdValue := id,
      phyIrType := eepromReadByte EEPROM_PHY_IR_TYPE_ADDRESS m,
      emuIrType := eepromReadByte EEPROM_EMU_IR_TYPE_ADDRESS m,
      irKeyCodes := eepromGetData EEPROM_DATA_ADDRESS NUMBER_OF_KEYS m,
      setupMode := false }
  else
    { initialState with eepromIdValue := id, setupMode := true }

/-- The guard `if (setupMode == true)` at the head of `loop`: when true the
iteration runs the learning (setup-mode) block before anything else. -/
def loopRunsLearning (st : SysState) : Bool := st.setupMode

/-! Helper lemmas about the EEPROM model. -/

lemma band255_lt (n : Nat) : n &&& 255 < 256 :=
  lt_of_le_of_lt Nat.and_le_right (by norm_num)

lemma eepromWriteLong_get0 (v a : Nat) (m : Mem) :
    eepromWriteLong v a m a = v &&& 255 := by
  have h1 : ¬(a = a + 1) := by omega
  have h2 : ¬(a = a + 2) := by omega
  have h3 : ¬(a = a + 3) := by omega
  simp [eepromWriteLong, EEPROM.write, h1, h2, h3, Nat.mod_eq_of_lt (band255_lt v)]

lemma eepromWriteLong_get1 (v a : Nat) (m : Mem) :
    eepromWriteLong v a m (a + 1) = (v >>> 8) &&& 255 := by
  have h2 : ¬(a + 1 = a + 2) := by omega
  have h3 : ¬(a + 1 = a + 3) := by omega
  simp [eepromWriteLong, EEPROM.write, h2, h3, Nat.mod_eq_of_lt (band255_lt (v >>> 8))]

lemma eepromWriteLong_get2 (v a : Nat) (m : Mem) :
    eepromWriteLong v a m (a + 2) = (v >>> 16) &&& 255 := by
  have h3 : ¬(a + 2 = a + 3) := by omega
  simp [eepromWriteLong, EEPROM.write, h3, Nat.mod_eq_of_lt (band255_lt (v >>> 16))]

lemma eepromWriteLong_get3 (v a : Nat) (m : Mem) :
    eepromWriteLong v a m (a + 3) = (v >>> 24) &&& 255 := by
  simp [eepromWriteLong, EEPROM.write, Nat.mod_eq_of_lt (band255_lt (v >>> 24))]

lemma eepromWriteLong_outside (v b x : Nat) (m : Mem) (h0 : x ≠ b)
    (h1 : x ≠ b + 1) (h2 : x ≠ b + 2) (h3 : x ≠ b + 3) :
    eepromWriteLong v b m x = m x := by
  simp [eepromWriteLong, EEPROM.write, h0, h1, h2, h3]

lemma eepromReadLong_writeLong (v a : Nat) (m : Mem) (hv : v < 4294967296) :
    eepromReadLong a (eepromWriteLong v a m) = v := by
  simp only [eepromReadLong, EEPROM.read, eepromWriteLong_get0,
    eepromWriteLong_get1, eepromWriteLong_get2, eepromWriteLong_get3]
  have e8 : (255 : Nat) = 2 ^ 8 - 1 := by norm_num
  have e16 : (65535 : Nat) = 2 ^ 16 - 1 := by norm_num
  have e24 : (16777215 : Nat) = 2 ^ 24 - 1 := by norm_num
  have e32 : (4294967295 : Nat) = 2 ^ 32 - 1 := by norm_num
  simp only [Nat.shiftLeft_eq, Nat.shiftRight_eq_div_pow, e8, e16, e24, e32,
    Nat.and_pow_two_sub_one_eq_mod]
  norm_num
  omega

lemma eepromReadLong_writeLong_above (v a b : Nat) (m : Mem) (h : a + 3 < b) :
    eepromReadLong a (eepromWriteLong v b m) = eepromReadLong a m := by
  simp only [eepromReadLong, EEPROM.read]
  rw [eepromWriteLong_outside v b a m (by omega) (by omega) (by omega) (by omega),
    eepromWriteLong_outside v b (a + 1) m (by omega) (by omega) (by omega) (by omega),
    eepromWriteLong_outside v b (a + 2) m (by omega) (by omega) (by omega) (by omega),
    eepromWriteLong_outside v b (a + 3) m (by omega) (by omega) (by omega) (by omega)]

lemma eepromSetData_below (rows : List (Nat × Nat)) :
    ∀ (b x : Nat) (m : Mem), x < b → eepromSetData b rows m x = m x := by
  induction rows with
  | nil => intro b x m _; rfl
  | cons row rest ih =>
    intro b x m hx
    simp only [eepromSetData]
    rw [ih (b + 8) x _ (by omega),
      eepromWriteLong_outside row.2 (b + 4) x _ (by omega) (by omega) (by omega) (by omega),
      eepromWriteLong_outside row.1 b x m (by omega) (by omega) (by omega) (by omega)]

lemma eepromReadLong_setData_below (rows : List (Nat × Nat)) (a b : Nat)
    (m : Mem) (h : a + 3 < b) :
    eepromReadLong a (eepromSetData b rows m) = eepromReadLong a m := by
  simp only [eepromReadLong, EEPROM.read]
  rw [eepromSetData_below rows b a m (by omega),
    eepromSetData_below rows b (a + 1) m (by omega),
    eepromSetData_below rows b (a + 2) m (by omega),
    eepromSetData_below rows b (a + 3) m (by omega)]

lemma eepromGetData_setData (rows : List (Nat × Nat)) :
    ∀ (a : Nat) (m : Mem), (∀ p ∈ rows, p.1 < 4294967296 ∧ p.2 < 4294967296) →
      eepromGetData a rows.length (eepromSetData a rows m) = rows := by
  induction rows with
  | nil => intro a m _; rfl
  | cons row rest ih =>
    intro a m h
    have hrow := h row (by simp)
    simp only [eepromSetData, List.length_cons, eepromGetData]
    have h1 : eepromReadLong a
        (eepromSetData (a + 8) rest
          (eepromWriteLong row.2 (a + 4) (eepromWriteLong row.1 a m))) = row.1 := by
      rw [eepromReadLong_setData_below rest a (a + 8) _ (by omega),
        eepromReadLong_writeLong_above row.2 a (a + 4) _ (by omega),
        eepromReadLong_writeLong row.1 a m hrow.1]
    have h2 : eepromReadLong (a + 4)
        (eepromSetData (a + 8) rest
          (eepromWriteLong row.2 (a + 4) (eepromWriteLong row.1 a m))) = row.2 := by
      rw [eepromReadLong_setData_below rest (a + 4) (a + 8) _ (by omega),
        eepromReadLong_writeLong row.2 (a + 4) _ hrow.2]
    rw [h1, h2, ih (a + 8) _ (fun p hp => h p (by simp [hp]))]

/-- C5: writing an image to the persistent store and reading it back yields
the same image: for every 32-bit value v and address a, reading the four
bytes written by the LSB-first long write reconstructs exactly v, and
reading back a whole block of code rows written by eepromSetData yields the
same rows, including the boundary values 0x0 and 0xFFFFFFFF. -/
theorem eeprom_roundtrip :
    (∀ (v a : Nat) (m : Mem), v < 4294967296 →
      eepromReadLong a (eepromWriteLong v a m) = v) ∧
    (∀ (rows : List (Nat × Nat)) (a : Nat) (m : Mem),
      (∀ p ∈ rows, p.1 < 4294967296 ∧ p.2 < 4294967296) →
      eepromGetData a rows.length (eepromSetData a rows m) = rows) :=
  ⟨fun v a m hv => eepromReadLong_writeLong v a m hv,
   fun rows a m h => eepromGetData_setData rows a m h⟩

/-- Witness for C5 at the boundary values 0x0 and 0xFFFFFFFF. -/
theorem eeprom_roundtrip_witness :
    eepromReadLong 3 (eepromWriteLong 4294967295 3 (fun _ => 170)) = 4294967295 ∧
    eepromGetData 3 2 (eepromSetData 3 [(0, 4294967295), (4294967295, 0)] (fun _ => 170)) =
      [(0, 4294967295), (4294967295, 0)] := by
  refine ⟨eeprom_roundtrip.1 4294967295 3 (fun _ => 170) (by decide), ?_⟩
  have h := eeprom_roundtrip.2 [(0, 4294967295), (4294967295, 0)] 3 (fun _ => 170)
    (by decide)
  simpa using h

lemma eepromWriteLong_get (v a k : Nat) (m : Mem) (hk : k < 4) :
    eepromWriteLong v a m (a + k) = (v >>> (8 * k)) &&& 255 := by
  interval_cases k
  · simpa using eepromWriteLong_get0 v a m
  · simpa using eepromWriteLong_get1 v a m
  · simpa using eepromWriteLong_get2 v a m
  · simpa using eepromWriteLong_get3 v a m

lemma eepromSetData_get (rows : List (Nat × Nat)) :
    ∀ (a : Nat) (m : Mem) (i k : Nat), i < rows.length → k < 8 →
      eepromSetData a rows m (a + 8 * i + k) =
        if k < 4 then ((rows.getD i (0, 0)).1 >>> (8 * k)) &&& 255
        else ((rows.getD i (0, 0)).2 >>> (8 * (k - 4))) &&& 255 := by
  induction rows with
  | nil => intro a m i k hi _; simp at hi
  | cons row rest ih =>
    intro a m i k hi hk
    cases i with
    | zero =>
      simp only [eepromSetData]
      rw [eepromSetData_below rest (a + 8) (a + 8 * 0 + k) _ (by omega)]
      by_cases h4 : k < 4
      · rw [if_pos h4, show a + 8 * 0 + k = a + k by omega,
          eepromWriteLong_outside row.2 (a + 4) (a + k) _ (by omega) (by omega)
            (by omega) (by omega),
          eepromWriteLong_get row.1 a k m h4]
        simp
      · rw [if_neg h4, show a + 8 * 0 + k = (a + 4) + (k - 4) by omega,
          eepromWriteLong_get row.2 (a + 4) (k - 4) _ (by omega)]
        simp
    | succ j =>
      simp only [eepromSetData]
      rw [show a + 8 * (j + 1) + k = (a + 8) + 8 * j + k by ring,
        ih (a + 8) _ j k (by simpa using hi) hk]
      simp

/-- C6: the persisted byte layout of the setup-mode flow is identity tag at
offset 0, physical protocol byte at offset 1, emulated protocol byte at
offset 2, and for every slot i the physical code in the 4 bytes at offset
3 + 8 * i LSB-first followed by the emulated code in the 4 bytes at offset
3 + 8 * i + 4, also LSB-first. -/
theorem persist_layout :
    ∀ (phy emu : Nat) (rows : List (Nat × Nat)) (m : Mem) (i k : Nat),
      i < rows.length → k < 4 →
      (EEPROM_ID_ADDRESS = 0 ∧ EEPROM_PHY_IR_TYPE_ADDRESS = 1 ∧
        EEPROM_EMU_IR_TYPE_ADDRESS = 2 ∧ EEPROM_DATA_ADDRESS = 3) ∧
      setupModePersist phy emu rows m EEPROM_ID_ADDRESS = EEPROM_ID_VALUE ∧
      setupModePersist phy emu rows m EEPROM_PHY_IR_TYPE_ADDRESS = phy % 256 ∧
      setupModePersist phy emu rows m EEPROM_EMU_IR_TYPE_ADDRESS = emu % 256 ∧
      setupModePersist phy emu rows m (EEPROM_DATA_ADDRESS + 8 * i + k) =
        ((rows.getD i (0, 0)).1 >>> (8 * k)) &&& 255 ∧
      setupModePersist phy emu rows m (EEPROM_DATA_ADDRESS + 8 * i + 4 + k) =
        ((rows.getD i (0, 0)).2 >>> (8 * k)) &&& 255 := by
  intro phy emu rows m i k hi hk
  refine ⟨⟨rfl, rfl, rfl, rfl⟩, ?_, ?_, ?_, ?_, ?_⟩
  · show eepromSetData 3 rows
      (EEPROM.write 2 emu (EEPROM.write 1 phy (EEPROM.write 0 153
        (eepromErase 1024 m)))) 0 = 153
    rw [eepromSetData_below rows 3 0 _ (by norm_num)]
    simp [EEPROM.write]
  · show eepromSetData 3 rows
      (EEPROM.write 2 emu (EEPROM.write 1 phy (EEPROM.write 0 153
        (eepromErase 1024 m)))) 1 = phy % 256
    rw [eepromSetData_below rows 3 1 _ (by norm_num)]
    simp [EEPROM.write]
  · show eepromSetData 3 rows
      (EEPROM.write 2 emu (EEPROM.write 1 phy (EEPROM.write 0 153
        (eepromErase 1024 m)))) 2 = emu % 256
    rw [eepromSetData_below rows 3 2 _ (by norm_num)]
    simp [EEPROM.write]
  · show eepromSetData 3 rows
      (EEPROM.write 2 emu (EEPROM.write 1 phy (EEPROM.write 0 153
        (eepromErase 1024 m)))) (3 + 8 * i + k) =
      ((rows.getD i (0, 0)).1 >>> (8 * k)) &&& 255
    rw [eepromSetData_get rows 3 _ i k hi (by omega), if_pos hk]
  · show eepromSetData 3 rows
      (EEPROM.write 2 emu (EEPROM.write 1 phy (EEPROM.write 0 153
        (eepromErase 1024 m)))) (3 + 8 * i + 4 + k) =
      ((rows.getD i (0, 0)).2 >>> (8 * k)) &&& 255
    rw [show (3 : Nat) + 8 * i + 4 + k = 3 + 8 * i + (4 + k) by omega,
      eepromSetData_get rows 3 _ i (4 + k) hi (by omega), if_neg (by omega)]
    have h4 : 4 + k - 4 = k := by omega
    rw [h4]

/-- Witness for C6 at a concrete image. -/
theorem persist_layout_witness :
    setupModePersist 7 8 [(305419896, 2596069104)] (fun _ => 170)
        (EEPROM_DATA_ADDRESS + 8 * 0 + 1) =
      ((([(305419896, 2596069104)] : List (Nat × Nat)).getD 0 (0, 0)).1 >>> (8 * 1)) &&& 255 ∧
    setupModePersist 7 8 [(305419896, 2596069104)] (fun _ => 170) EEPROM_ID_ADDRESS =
      EEPROM_ID_VALUE :=
  ⟨(persist_layout 7 8 [(305419896, 2596069104)] (fun _ => 170) 0 1
      (by decide) (by decide)).2.2.2.2.1,
   (persist_layout 7 8 [(305419896, 2596069104)] (fun _ => 170) 0 1
      (by decide) (by decide)).2.1⟩

/-- C8: at process start the table is loaded from the store if and only if
the identity byte at offset 0 equals 0x99; for every other identity byte
the globals stay at their reset values and setup mode is entered, so the
first `loop` cycle runs the learning block. -/
theorem setup_checks_magic :
    ∀ m : Mem,
      (eepromReadByte EEPROM_ID_ADDRESS m = EEPROM_ID_VALUE →
        setup m = { eepromIdValue := EEPROM_ID_VALUE,
                    phyIrType := eepromReadByte EEPROM_PHY_IR_TYPE_ADDRESS m,
                    emuIrType := eepromReadByte EEPROM_EMU_IR_TYPE_ADDRESS m,
                    irKeyCodes := eepromGetData EEPROM_DATA_ADDRESS NUMBER_OF_KEYS m,
                    setupMode := false }) ∧
      (eepromReadByte EEPROM_ID_ADDRESS m ≠ EEPROM_ID_VALUE →
        setup m = { initialState with
                    eepromIdValue := eepromReadByte EEPROM_ID_ADDRESS m,
                    setupMode := true } ∧
        (setup m).irKeyCodes = List.replicate NUMBER_OF_KEYS (0, 0)) ∧
      (loopRunsLearning (setup m) = true ↔
        eepromReadByte EEPROM_ID_ADDRESS m ≠ EEPROM_ID_VALUE) := by
  intro m
  by_cases h : eepromReadByte EEPROM_ID_ADDRESS m = EEPROM_ID_VALUE
  · refine ⟨fun _ => by simp [setup, h], fun hc => absurd h hc, ?_⟩
    simp [loopRunsLearning, setup, h]
  · refine ⟨fun hc => absurd hc h,
      fun _ => ⟨by simp [setup, h], by simp [setup, h, initialState]⟩, ?_⟩
    simp [loopRunsLearning, setup, h]

/-- Witness for C8 on an erased (all-zero) store. -/
theorem setup_checks_magic_witness :
    loopRunsLearning (setup (fun _ => 0)) = true :=
  ((setup_checks_magic (fun _ => 0)).2.2).mpr (by decide)

/-! Lookup: the linear scan of `loop`. -/

lemma lookupSlot_some_iff (v : Nat) :
    ∀ (codes : List (Nat × Nat)) (i : Nat),
      lookupSlot codes v = some i ↔
        i < codes.length ∧ (codes.getD i (0, 0)).1 = v ∧
          ∀ j, j < i → (codes.getD j (0, 0)).1 ≠ v := by
  intro codes
  induction codes with
  | nil => intro i; simp [lookupSlot]
  | cons p rest ih =>
    intro i
    by_cases hp : p.1 = v
    · simp only [lookupSlot, if_pos hp]
      constructor
      · intro h
        have hi : i = 0 := (Option.some.inj h).symm
        subst hi
        exact ⟨by simp, by simpa using hp, fun j hj => absurd hj (Nat.not_lt_zero j)⟩
      · rintro ⟨hlen, hval, hmin⟩
        cases i with
        | zero => rfl
        | succ i2 => exact absurd (by simpa using hp) (hmin 0 (by omega))
    · simp only [lookupSlot, if_neg hp]
      constructor
      · intro h
        obtain ⟨i2, hi2, hie⟩ := Option.map_eq_some'.mp h
        obtain ⟨h1, h2, h3⟩ := (ih i2).mp hi2
        subst hie
        refine ⟨by simpa using Nat.succ_lt_succ h1, by simpa using h2, ?_⟩
        intro j hj
        cases j with
        | zero => simpa using hp
        | succ j2 => simpa using h3 j2 (by omega)
      · rintro ⟨h1, h2, h3⟩
        cases i with
        | zero => exact absurd (by simpa using h2) hp
        | succ i2 =>
          have hr := (ih i2).mpr ⟨by simpa using h1, by simpa using h2,
            fun j hj => by simpa using h3 (j + 1) (by omega)⟩
          rw [hr]
          rfl

lemma lookupSlot_none_iff (v : Nat) :
    ∀ codes : List (Nat × Nat),
      lookupSlot codes v = none ↔
        ∀ j, j < codes.length → (codes.getD j (0, 0)).1 ≠ v := by
  intro codes
  induction codes with
  | nil => simp [lookupSlot]
  | cons p rest ih =>
    by_cases hp : p.1 = v
    · simp only [lookupSlot, if_pos hp]
      constructor
      · intro h; exact absurd h (by simp)
      · intro h; exact absurd (by simpa using hp) (h 0 (by simp))
    · simp only [lookupSlot, if_neg hp]
      rw [Option.map_eq_none', ih]
      constructor
      · intro h j hj
        cases j with
        | zero => simpa using hp
        | succ j2 => simpa using h j2 (by simpa using hj)
      · intro h j hj
        simpa using h (j + 1) (by simpa using hj)

/-- C4: the dispatch scan is a deterministic first-match linear search: it
yields the lowest-index slot whose physical code equals the received value,
`none` when no row matches, and on the duplicate-code table
[(0x10, 0x20), (0x10, 0x40)] it returns slot 0. -/
theorem lookup_first_match :
    ∀ (codes : List (Nat × Nat)) (v : Nat),
      (∀ i, lookupSlot codes v = some i ↔
        i < codes.length ∧ (codes.getD i (0, 0)).1 = v ∧
          ∀ j, j < i → (codes.getD j (0, 0)).1 ≠ v) ∧
      (lookupSlot codes v = none ↔
        ∀ j, j < codes.length → (codes.getD j (0, 0)).1 ≠ v) ∧
      lookupSlot [(16, 32), (16, 64)] 16 = some 0 :=
  fun codes v =>
    ⟨fun i => lookupSlot_some_iff v codes i, lookupSlot_none_iff v codes, by decide⟩

/-- Witness for C4: first-match-wins on the ambiguous table and a miss on
an absent code. -/
theorem lookup_first_match_witness :
    lookupSlot [(16, 32), (16, 64)] 16 = some 0 ∧
    lookupSlot [(16, 32), (48, 64)] 153 = none :=
  ⟨(lookup_first_match [(16, 32), (16, 64)] 16).2.2,
   ((lookup_first_match [(16, 32), (48, 64)] 153).2.1).mpr (by decide)⟩

/-! Dispatch. -/

lemma dispatchSwitch_default (emuIrType data : Nat)
    (hJ : (emuIrType : Int) - 1 ≠ JVC) (hS : (emuIrType : Int) - 1 ≠ SAMSUNG) :
    dispatchSwitch emuIrType data = SendCall.sendJVC data 16 0 := by
  simp [dispatchSwitch, hJ, hS]

lemma loopDispatch_hit (codes : List (Nat × Nat)) (t v i : Nat)
    (hv : 0 < v) (hl : lookupSlot codes v = some i) :
    loopDispatch codes t (some v) = [dispatchSwitch t ((codes.getD i (0, 0)).2)] := by
  simp [loopDispatch, hv, hl]

lemma dispatchRun_append (codes : List (Nat × Nat)) (t : Nat) :
    ∀ xs ys : List (Option Nat),
      dispatchRun codes t (xs ++ ys) = dispatchRun codes t xs ++ dispatchRun codes t ys := by
  intro xs
  induction xs with
  | nil => intro ys; simp [dispatchRun]
  | cons x rest ih => intro ys; simp [dispatchRun, ih, List.append_assoc]

/-- C1 counterexample: with the emulated type byte 1 the switch value is 0
(UNUSED), which is neither JVC nor SAMSUNG, yet dispatch of the matched
code performs a transmit call: the default label falls through into the
sendJVC arm. -/
theorem unsupported_protocol_cex :
    ((1 : Nat) : Int) - 1 ≠ JVC ∧ ((1 : Nat) : Int) - 1 ≠ SAMSUNG ∧
    lookupSlot [(16, 32)] 16 = some 0 ∧
    loopDispatch [(16, 32)] 1 (some 16) = [SendCall.sendJVC 32 16 0] :=
  ⟨by decide, by decide, by decide, by decide⟩

/-- C1 amended: when the decremented emulated tag matches no supported
encoder, the switch default falls through into the JVC arm, so dispatch of
a matched code performs exactly one transmit call sendJVC(code, 16, 0) and
the iteration completes normally. -/
theorem unsupported_protocol_sends_jvc :
    ∀ (codes : List (Nat × Nat)) (emuIrType v i : Nat),
      (emuIrType : Int) - 1 ≠ JVC → (emuIrType : Int) - 1 ≠ SAMSUNG →
      0 < v → lookupSlot codes v = some i →
      loopDispatch codes emuIrType (some v) =
        [SendCall.sendJVC ((codes.getD i (0, 0)).2) 16 0] := by
  intro codes t v i hJ hS hv hl
  rw [loopDispatch_hit codes t v i hv hl, dispatchSwitch_default t _ hJ hS]

/-- Witness for the amended C1. -/
theorem unsupported_protocol_sends_jvc_witness :
    loopDispatch [(16, 32)] 1 (some 16) = [SendCall.sendJVC 32 16 0] := by
  have h := unsupported_protocol_sends_jvc [(16, 32)] 1 16 0
    (by decide) (by decide) (by decide) (by decide)
  simpa using h

/-- C2 counterexample: two consecutive dispatch iterations decode the same
raw code 16; the second iteration looks the code up and transmits again
instead of rejecting the immediate repeat. -/
theorem dispatch_no_debounce_cex :
    dispatchRun [(16, 32)] 8 [some 16, some 16] =
      [SendCall.sendSAMSUNG 32 32, SendCall.sendSAMSUNG 32 32] := by decide

/-- C2 amended: dispatch applies no immediate-repeat debounce at all; each
iteration handles its decoded value independently of every previous
iteration (the response to the last signal of any sequence is a function of
that signal alone), the only rejected inputs being an absent signal or a
decoded value of zero; in particular a repeat of the immediately-previous
dispatched code is looked up and transmitted again. -/
theorem dispatch_stateless :
    ∀ (codes : List (Nat × Nat)) (t : Nat),
      (∀ (sigs : List (Option Nat)) (s : Option Nat),
        dispatchRun codes t (sigs ++ [s]) =
          dispatchRun codes t sigs ++ loopDispatch codes t s) ∧
      loopDispatch codes t (some 0) = [] ∧
      loopDispatch codes t none = [] ∧
      (∀ v i, 0 < v → lookupSlot codes v = some i →
        loopDispatch codes t (some v) =
          [dispatchSwitch t ((codes.getD i (0, 0)).2)]) := by
  intro codes t
  refine ⟨fun sigs s => ?_, by simp [loopDispatch], by simp [loopDispatch],
    fun v i hv hl => loopDispatch_hit codes t v i hv hl⟩
  rw [dispatchRun_append]
  simp [dispatchRun]

/-- Witness for the amended C2. -/
theorem dispatch_stateless_witness :
    dispatchRun [(16, 32)] 8 ([some 16] ++ [some 16]) =
      dispatchRun [(16, 32)] 8 [some 16] ++ loopDispatch [(16, 32)] 8 (some 16) ∧
    loopDispatch [(16, 32)] 8 (some 16) =
      [dispatchSwitch 8 (([(16, 32)] : List (Nat × Nat)).getD 0 (0, 0)).2] :=
  ⟨(dispatch_stateless [(16, 32)] 8).1 [some 16] (some 16),
   (dispatch_stateless [(16, 32)] 8).2.2.2 16 0 (by decide) (by decide)⟩

/-! Learning session. -/

lemma learnGo_skip (n row : Nat) (s : DecodeResult) (rest : List DecodeResult)
    (codes : List (Nat × Nat)) (i prev : Nat) (rt : Int)
    (h : s.value = 4294967295 ∨ s.value = prev) :
    learnGo n row (s :: rest) codes i prev rt =
      learnGo n row rest codes i prev rt := by
  by_cases hn : n ≤ i
  · cases rest with
    | nil => simp [learnGo, hn]
    | cons t ts => simp [learnGo, hn]
  · have hcond : ¬(s.value ≠ 4294967295 ∧ s.value ≠ prev) := by
      rcases h with h | h <;> simp [h]
    simp [learnGo, hn, hcond]

lemma learnGo_accept (n row : Nat) (s : DecodeResult) (rest : List DecodeResult)
    (codes : List (Nat × Nat)) (i prev : Nat) (rt : Int)
    (hn : i < n) (h1 : s.value ≠ 4294967295) (h2 : s.value ≠ prev) :
    learnGo n row (s :: rest) codes i prev rt =
      learnGo n row rest (setCode codes i row s.value) (i + 1) s.value
        (if i = 0 then s.decode_type else rt) := by
  have hn2 : ¬(n ≤ i) := by omega
  simp [learnGo, hn2, h1, h2]

lemma learnGo_rt_const (n row : Nat) :
    ∀ (signals : List DecodeResult) (codes : List (Nat × Nat)) (i prev : Nat)
      (rt : Int) (res : List (Nat × Nat) × Int),
      1 ≤ i → learnGo n row signals codes i prev rt = some res → res.2 = rt := by
  intro signals
  induction signals with
  | nil =>
    intro codes i prev rt res hi h
    simp only [learnGo] at h
    by_cases hn : n ≤ i
    · rw [if_pos hn] at h
      rw [← Option.some.inj h]
    · rw [if_neg hn] at h; exact absurd h (by simp)
  | cons s rest ih =>
    intro codes i prev rt res hi h
    by_cases hn : n ≤ i
    · have he : learnGo n row (s :: rest) codes i prev rt = some (codes, rt) := by
        simp [learnGo, hn]
      rw [he] at h
      rw [← Option.some.inj h]
    · by_cases hc : s.value ≠ 4294967295 ∧ s.value ≠ prev
      · rw [learnGo_accept n row s rest codes i prev rt (by omega) hc.1 hc.2] at h
        have hr := ih _ (i + 1) s.value _ res (by omega) h
        rw [hr, if_neg (by omega : ¬i = 0)]
      · rw [learnGo_skip n row s rest codes i prev rt (by tauto)] at h
        exact ih codes i prev rt res hi h

lemma learnGo_first (n row : Nat) :
    ∀ (signals : List DecodeResult) (codes : List (Nat × Nat)) (prev : Nat)
      (rt : Int) (res : List (Nat × Nat) × Int),
      0 < n → learnGo n row signals codes 0 prev rt = some res →
      ∃ s, firstAccepted prev signals = some s ∧ res.2 = s.decode_type := by
  intro signals
  induction signals with
  | nil =>
    intro codes prev rt res hn h
    simp [learnGo, Nat.not_le.mpr hn] at h
  | cons s rest ih =>
    intro codes prev rt res hn h
    by_cases hc : s.value ≠ 4294967295 ∧ s.value ≠ prev
    · rw [learnGo_accept n row s rest codes 0 prev rt hn hc.1 hc.2] at h
      refine ⟨s, by simp [firstAccepted, hc], ?_⟩
      have hr := learnGo_rt_const n row rest (setCode codes 0 row s.value) 1
        s.value (if 0 = 0 then s.decode_type else rt) res (by omega) h
      simpa using hr
    · rw [learnGo_skip n row s rest codes 0 prev rt (by tauto)] at h
      obtain ⟨s2, hs2, he⟩ := ih codes prev rt res hn h
      exact ⟨s2, by simpa [firstAccepted, hc] using hs2, he⟩

/-- C3 counterexample: a two-slot learning session fed [A, A] never fills
slot 1 (the repeated code is rejected there even though it was accepted for
slot 0, so the session blocks: `none`); fed [A, B] with a different second
code it completes. -/
theorem learn_prev_not_reset_cex :
    learnIRKeyCodes [⟨3, 5⟩, ⟨3, 5⟩] [(0, 0), (0, 0)] 2 0 = none ∧
    learnIRKeyCodes [⟨3, 5⟩, ⟨3, 6⟩] [(0, 0), (0, 0)] 2 0 =
      some ([(5, 0), (6, 0)], 4) := by
  constructor <;> rfl

/-- C3 amended: the previous-code filter is not reset when the session
advances to a new slot: `previousValue` persists across the advance, so
after a signal is accepted for slot i, a directly following signal carrying
the same raw code is skipped without being accepted for slot i + 1; only a
signal differing from the last accepted code (and from 0xFFFFFFFF) is
accepted. -/
theorem learn_prev_filter_persists :
    ∀ (n row : Nat) (s t : DecodeResult) (rest : List DecodeResult)
      (codes : List (Nat × Nat)) (i prev : Nat) (rt : Int),
      i < n → s.value ≠ 4294967295 → s.value ≠ prev → t.value = s.value →
      learnGo n row (s :: t :: rest) codes i prev rt =
        learnGo n row rest (setCode codes i row s.value) (i + 1) s.value
          (if i = 0 then s.decode_type else rt) := by
  intro n row s t rest codes i prev rt hn h1 h2 ht
  rw [learnGo_accept n row s (t :: rest) codes i prev rt hn h1 h2,
    learnGo_skip n row t rest _ (i + 1) s.value _ (Or.inr ht)]

/-- Witness for the amended C3. -/
theorem learn_prev_filter_persists_witness :
    learnGo 2 0 [⟨3, 5⟩, ⟨9, 5⟩] [(0, 0), (0, 0)] 0 4294967295 (-1) =
      learnGo 2 0 [] (setCode [(0, 0), (0, 0)] 0 0 5) 1 5
        (if 0 = 0 then 3 else -1) :=
  learn_prev_filter_persists 2 0 ⟨3, 5⟩ ⟨9, 5⟩ [] [(0, 0), (0, 0)] 0 4294967295 (-1)
    (by decide) (by decide) (by decide) (by decide)

/-- C9: within one slot wait starting at slot i, the signal sequence
[A, A, A, B] (A not equal to the previous accepted code, B distinct from A,
both valid) accepts each distinct value exactly once: slot i is filled with
A on the first signal, the two repeated A signals are consumed without
advancing, and B fills slot i + 1, leaving the session at slot i + 2. -/
theorem learn_debounce_AAAB :
    ∀ (n row : Nat) (ta1 ta2 ta3 tb : Int) (A B : Nat)
      (rest : List DecodeResult) (codes : List (Nat × Nat)) (i prev : Nat)
      (rt : Int),
      i + 1 < n → A ≠ prev → B ≠ A → A ≠ 4294967295 → B ≠ 4294967295 →
      learnGo n row (⟨ta1, A⟩ :: ⟨ta2, A⟩ :: ⟨ta3, A⟩ :: ⟨tb, B⟩ :: rest)
          codes i prev rt =
        learnGo n row rest (setCode (setCode codes i row A) (i + 1) row B)
          (i + 2) B (if i = 0 then ta1 else rt) := by
  intro n row ta1 ta2 ta3 tb A B rest codes i prev rt hn hA hBA hAv hBv
  rw [learnGo_accept n row ⟨ta1, A⟩ _ codes i prev rt (by omega) hAv hA]
  rw [learnGo_skip n row ⟨ta2, A⟩ _ _ (i + 1) A _ (Or.inr rfl)]
  rw [learnGo_skip n row ⟨ta3, A⟩ _ _ (i + 1) A _ (Or.inr rfl)]
  rw [learnGo_accept n row ⟨tb, B⟩ rest _ (i + 1) A _ (by omega) hBv hBA]
  rw [if_neg (show ¬(i + 1 = 0) by omega)]

/-- Witness for C9. -/
theorem learn_debounce_AAAB_witness :
    learnGo 2 0 [⟨3, 5⟩, ⟨3, 5⟩, ⟨3, 5⟩, ⟨4, 6⟩] [(0, 0), (0, 0)] 0 4294967295 (-1) =
      learnGo 2 0 [] (setCode (setCode [(0, 0), (0, 0)] 0 0 5) 1 0 6) 2 6
        (if 0 = 0 then 3 else -1) :=
  learn_debounce_AAAB 2 0 3 3 3 4 5 6 [] [(0, 0), (0, 0)] 0 4294967295 (-1)
    (by decide) (by decide) (by decide) (by decide) (by decide)

lemma toByte_lt (x : Int) : toByte x < 256 := by
  simp only [toByte]
  omega

lemma toByte_cast (x : Int) (h0 : 0 ≤ x) (h1 : x < 256) : (toByte x : Int) = x := by
  simp only [toByte]
  omega

lemma setupModePersist_phyByte (phy emu : Nat) (rows : List (Nat × Nat)) (m : Mem) :
    setupModePersist phy emu rows m EEPROM_PHY_IR_TYPE_ADDRESS = phy % 256 := by
  show eepromSetData 3 rows
    (EEPROM.write 2 emu (EEPROM.write 1 phy (EEPROM.write 0 153
      (eepromErase 1024 m)))) 1 = phy % 256
  rw [eepromSetData_below rows 3 1 _ (by norm_num)]
  simp [EEPROM.write]

lemma setupModePersist_emuByte (phy emu : Nat) (rows : List (Nat × Nat)) (m : Mem) :
    setupModePersist phy emu rows m EEPROM_EMU_IR_TYPE_ADDRESS = emu % 256 := by
  show eepromSetData 3 rows
    (EEPROM.write 2 emu (EEPROM.write 1 phy (EEPROM.write 0 153
      (eepromErase 1024 m)))) 2 = emu % 256
  rw [eepromSetData_below rows 3 2 _ (by norm_num)]
  simp [EEPROM.write]

/-- C7: the protocol tag returned by a completed learning session is
captured from the first accepted signal (the only assignment to
`remoteType` happens at slot 0, so later slots never change it); the
returned byte is that tag plus one (truncated to a byte, and exactly
tag + 1 on the library's tag range, so a stored 0 means the unset tag -1);
and the setup-mode flow persists that byte unchanged at the protocol-byte
addresses. -/
theorem learn_captures_first_tag :
    ∀ (signals : List DecodeResult) (codes : List (Nat × Nat)) (n row : Nat)
      (res : List (Nat × Nat) × Nat),
      0 < n → learnIRKeyCodes signals codes n row = some res →
      ∃ s, firstAccepted 4294967295 signals = some s ∧
        res.2 = toByte (s.decode_type + 1) ∧
        (-1 ≤ s.decode_type → s.decode_type < 255 →
          (res.2 : Int) = s.decode_type + 1) ∧
        (∀ (emu : Nat) (rows : List (Nat × Nat)) (m : Mem),
          setupModePersist res.2 emu rows m EEPROM_PHY_IR_TYPE_ADDRESS = res.2) ∧
        (∀ (phy : Nat) (rows : List (Nat × Nat)) (m : Mem),
          setupModePersist phy res.2 rows m EEPROM_EMU_IR_TYPE_ADDRESS = res.2) := by
  intro signals codes n row res hn h
  cases hgo : learnGo n row signals codes 0 4294967295 (-1) with
  | none =>
    have hnone : learnIRKeyCodes signals codes n row = none := by
      unfold learnIRKeyCodes; rw [hgo]
    rw [hnone] at h
    exact absurd h (by simp)
  | some p =>
    obtain ⟨pc, prt⟩ := p
    have hval : learnIRKeyCodes signals codes n row = some (pc, toByte (prt + 1)) := by
      unfold learnIRKeyCodes; rw [hgo]
    have hres : res = (pc, toByte (prt + 1)) :=
      (Option.some.inj (hval.symm.trans h)).symm
    obtain ⟨s, hs, he⟩ :=
      learnGo_first n row signals codes 4294967295 (-1) (pc, prt) hn hgo
    have he2 : prt = s.decode_type := he
    subst hres
    refine ⟨s, hs, by rw [he2], fun ha hb => ?_, fun emu rows m => ?_, fun phy rows m => ?_⟩
    · show ((toByte (prt + 1) : Nat) : Int) = s.decode_type + 1
      rw [he2]
      exact toByte_cast _ (by omega) (by omega)
    · show setupModePersist (toByte (prt + 1)) emu rows m
        EEPROM_PHY_IR_TYPE_ADDRESS = toByte (prt + 1)
      rw [setupModePersist_phyByte, Nat.mod_eq_of_lt (toByte_lt _)]
    · show setupModePersist phy (toByte (prt + 1)) rows m
        EEPROM_EMU_IR_TYPE_ADDRESS = toByte (prt + 1)
      rw [setupModePersist_emuByte, Nat.mod_eq_of_lt (toByte_lt _)]

/-- Witness for C7. -/
theorem learn_captures_first_tag_witness :
    ∃ s, firstAccepted 4294967295 [(⟨3, 5⟩ : DecodeResult)] = some s ∧
      (([(5, 0)], 4) : List (Nat × Nat) × Nat).2 = toByte (s.decode_type + 1) ∧
      (-1 ≤ s.decode_type → s.decode_type < 255 →
        ((([(5, 0)], 4) : List (Nat × Nat) × Nat).2 : Int) = s.decode_type + 1) ∧
      (∀ (emu : Nat) (rows : List (Nat × Nat)) (m : Mem),
        setupModePersist (([(5, 0)], 4) : List (Nat × Nat) × Nat).2 emu rows m
          EEPROM_PHY_IR_TYPE_ADDRESS = (([(5, 0)], 4) : List (Nat × Nat) × Nat).2) ∧
      (∀ (phy : Nat) (rows : List (Nat × Nat)) (m : Mem),
        setupModePersist phy (([(5, 0)], 4) : List (Nat × Nat) × Nat).2 rows m
          EEPROM_EMU_IR_TYPE_ADDRESS = (([(5, 0)], 4) : List (Nat × Nat) × Nat).2) :=
  learn_captures_first_tag [⟨3, 5⟩] [(0, 0)] 1 0 ([(5, 0)], 4) (by decide) (by rfl)

lemma getD_set_cases : ∀ (l : List (Nat × Nat)) (i j : Nat) (p : Nat × Nat),
    (l.set i p).getD j (0, 0) =
      if i = j ∧ i < l.length then p else l.getD j (0, 0) := by
  intro l
  induction l with
  | nil => intro i j p; simp
  | cons q rest ih =>
    intro i j p
    cases i with
    | zero =>
      cases j with
      | zero => simp
      | succ j2 => simp
    | succ i2 =>
      cases j with
      | zero => simp
      | succ j2 =>
        simp only [List.set_cons_succ, List.getD_cons_succ, List.length_cons]
        rw [ih i2 j2 p]
        by_cases hc : i2 = j2 ∧ i2 < rest.length
        · rw [if_pos hc, if_pos (by omega)]
        · rw [if_neg hc, if_neg (by omega)]

lemma setCode_length (codes : List (Nat × Nat)) (i row v : Nat) :
    (setCode codes i row v).length = codes.length := by
  by_cases h : row = 0 <;> simp [setCode, h]

lemma setCode_colVal_other (codes : List (Nat × Nat)) (i row v : Nat)
    (hrow : row ≤ 1) (j : Nat) :
    colVal ((setCode codes i row v).getD j (0, 0)) (1 - row) =
      colVal (codes.getD j (0, 0)) (1 - row) := by
  interval_cases row
  · simp only [setCode, if_true]
    rw [getD_set_cases]
    by_cases hc : i = j ∧ i < codes.length
    · rw [if_pos hc]
      simp only [colVal]
      norm_num
      rw [hc.1]
    · rw [if_neg hc]
  · simp only [setCode]
    rw [if_neg (by omega), getD_set_cases]
    by_cases hc : i = j ∧ i < codes.length
    · rw [if_pos hc]
      simp only [colVal]
      norm_num
      rw [hc.1]
    · rw [if_neg hc]

lemma learnGo_frame (n row : Nat) (hrow : row ≤ 1) :
    ∀ (signals : List DecodeResult) (codes : List (Nat × Nat)) (i prev : Nat)
      (rt : Int) (res : List (Nat × Nat) × Int),
      learnGo n row signals codes i prev rt = some res →
      res.1.length = codes.length ∧
        ∀ j, colVal (res.1.getD j (0, 0)) (1 - row) =
          colVal (codes.getD j (0, 0)) (1 - row) := by
  intro signals
  induction signals with
  | nil =>
    intro codes i prev rt res h
    simp only [learnGo] at h
    by_cases hn : n ≤ i
    · rw [if_pos hn] at h
      rw [← Option.some.inj h]
      exact ⟨rfl, fun j => rfl⟩
    · rw [if_neg hn] at h; exact absurd h (by simp)
  | cons s rest ih =>
    intro codes i prev rt res h
    by_cases hn : n ≤ i
    · have he : learnGo n row (s :: rest) codes i prev rt = some (codes, rt) := by
        simp [learnGo, hn]
      rw [he] at h
      rw [← Option.some.inj h]
      exact ⟨rfl, fun j => rfl⟩
    · by_cases hc : s.value ≠ 4294967295 ∧ s.value ≠ prev
      · rw [learnGo_accept n row s rest codes i prev rt (by omega) hc.1 hc.2] at h
        obtain ⟨hl, hcol⟩ := ih _ (i + 1) s.value _ res h
        refine ⟨by rw [hl, setCode_length], fun j => ?_⟩
        rw [hcol j, setCode_colVal_other codes i row s.value hrow j]
      · rw [learnGo_skip n row s rest codes i prev rt (by tauto)] at h
        exact ih codes i prev rt res h

/-- C10: a learning session for one role only writes that role's column of
the key-code table: a completed call with `dataSetRow` equal to 0 or 1
leaves the table length and every entry of the other column (index
`1 - dataSetRow`) unchanged, for all slots. -/
theorem learn_frame_other_column :
    ∀ (signals : List DecodeResult) (codes : List (Nat × Nat)) (n row : Nat)
      (res : List (Nat × Nat) × Nat),
      row ≤ 1 → learnIRKeyCodes signals codes n row = some res →
      res.1.length = codes.length ∧
        ∀ j, colVal (res.1.getD j (0, 0)) (1 - row) =
          colVal (codes.getD j (0, 0)) (1 - row) := by
  intro signals codes n row res hrow h
  cases hgo : learnGo n row signals codes 0 4294967295 (-1) with
  | none =>
    have hnone : learnIRKeyCodes signals codes n row = none := by
      unfold learnIRKeyCodes; rw [hgo]
    rw [hnone] at h
    exact absurd h (by simp)
  | some p =>
    obtain ⟨pc, prt⟩ := p
    have hval : learnIRKeyCodes signals codes n row = some (pc, toByte (prt + 1)) := by
      unfold learnIRKeyCodes; rw [hgo]
    have hres : res = (pc, toByte (prt + 1)) :=
      (Option.some.inj (hval.symm.trans h)).symm
    obtain ⟨hl, hcol⟩ :=
      learnGo_frame n row hrow signals codes 0 4294967295 (-1) (pc, prt) hgo
    subst hres
    exact ⟨hl, hcol⟩

/-- Witness for C10: learning the emulated column (row 1) leaves the
physical column (column 0) unchanged. -/
theorem learn_frame_other_column_witness :
    (([(9, 7)], 3) : List (Nat × Nat) × Nat).1.length =
      ([(9, 4)] : List (Nat × Nat)).length ∧
    ∀ j, colVal ((([(9, 7)], 3) : List (Nat × Nat) × Nat).1.getD j (0, 0)) (1 - 1) =
      colVal (([(9, 4)] : List (Nat × Nat)).getD j (0, 0)) (1 - 1) :=
  learn_frame_other_column [⟨2, 7⟩] [(9, 4)] 1 1 ([(9, 7)], 3) (by decide) (by rfl)

end IRConverter
